import Mathlib

/-!
Verification development for the irobot per-session orchestration kernel.

This file gives a shallow embedding, in Lean 4, of the pieces of the
robot_core crate that the verified properties talk about:

* src/robot_core/src/utils/mod.rs — consumed-event set, elicitation-active
  set, input and output event types;
* src/robot_core/src/workflow_steps/mod.rs — the LLM parameter resolver
  pipeline (normalize_null_strings, ensure_required_fields_present, the
  merge with planner args, the object fast path);
* src/robot_core/src/mcp/rmcp_client.rs — is_cancel_text, should_reconnect,
  with_service_retry, the argument stripping in call, and the elicitation
  handler of RobotClientHandler;
* src/robot_core/src/core/session.rs — the session actor input handler and
  execute_workflow, with the pending_execution suspension machinery;
* src/robot_core/src/core/tasks/manager.rs — the background task manager.

Strings are modelled as lists of characters so that the byte-level trim,
ASCII lowercasing and substring checks done by the Rust code become
provable character-level operations (for valid UTF-8 a substring match is
always aligned on character boundaries, so the character-level model is
faithful).  JSON values (serde_json::Value) are modelled by the nested
inductive type Json below; numbers are modelled as integers, which covers
every number the modelled code paths inspect.  External collaborators
(the LLM backend, serde_json parsing of free text, the MCP server, the
step trait objects) are modelled as explicit oracle parameters: the code
under analysis treats their outputs as opaque data.
-/

/-- Converts a Lean string literal into the character-list representation
used throughout this development. -/
def cs (s : String) : List Char := s.data

/-- ASCII lowercasing of one character, as done byte-wise by the Rust
methods to_ascii_lowercase and eq_ignore_ascii_case. -/
def asciiLowerChar (c : Char) : Char :=
  if 65 ≤ c.toNat ∧ c.toNat ≤ 90 then Char.ofNat (c.toNat + 32) else c

/-- ASCII lowercasing of a whole string (str::to_ascii_lowercase). -/
def lowerAscii (s : List Char) : List Char := s.map asciiLowerChar

/-- Whitespace trimming from both ends (str::trim). -/
def trimChars (s : List Char) : List Char :=
  ((s.dropWhile Char.isWhitespace).reverse.dropWhile Char.isWhitespace).reverse

/-- Does the text start with the given pattern (str::starts_with)? -/
def startsWithL : List Char → List Char → Bool
  | [], _ => true
  | _ :: _, [] => false
  | p :: ps, c :: cst => p == c && startsWithL ps cst

/-- Does the text contain the pattern as a contiguous substring
(str::contains with a string pattern)? -/
def containsSub : List Char → List Char → Bool
  | t, p =>
    startsWithL p t ||
      match t with
      | [] => false
      | _ :: t1 => containsSub t1 p

/-- The check s.trim().eq_ignore_ascii_case of the literal null, shared by
normalize_null_strings (workflow_steps/mod.rs) and the missing-field test
in RmcpStdIoClient::call (rmcp_client.rs). -/
def isNullString (s : List Char) : Bool :=
  lowerAscii (trimChars s) == cs "null"

/-- Shallow model of serde_json::Value.  Object fields are an association
list in insertion order; all code paths under analysis only ever look
fields up by key or fold over them, so the ordering discipline of the
underlying map type is irrelevant. -/
inductive Json where
  | null : Json
  | bool (b : Bool) : Json
  | num (n : Int) : Json
  | str (s : List Char) : Json
  | arr (elems : List Json) : Json
  | obj (fields : List (List Char × Json)) : Json
deriving Repr

instance : Inhabited Json := ⟨Json.null⟩

/-- Key lookup in an object field list (serde_json Map::get). -/
def lookupKV : List (List Char × Json) → List Char → Option Json
  | [], _ => none
  | (k, v) :: rest, key => if k = key then some v else lookupKV rest key

/-- Key insertion into an object field list (serde_json Map::insert):
replaces the value when the key is present, appends otherwise. -/
def insertKV : List (List Char × Json) → List Char → Json → List (List Char × Json)
  | [], key, v => [(key, v)]
  | (k, w) :: rest, key, v =>
    if k = key then (key, v) :: rest else (k, w) :: insertKV rest key v

/-- Is this value a JSON object (Value::is_object)? -/
def Json.isObj : Json → Bool
  | .obj _ => true
  | _ => false

/-- Is this value JSON null (Value::is_null)? -/
def Json.isNull : Json → Bool
  | .null => true
  | _ => false

/-- Value::get on an object, none on every other shape. -/
def Json.getKey : Json → List Char → Option Json
  | .obj kvs, k => lookupKV kvs k
  | _, _ => none

mutual
/-- normalize_null_strings (workflow_steps/mod.rs): recursively turn every
string whose trimmed form equals null case-insensitively into JSON null. -/
def normalizeNullStrings : Json → Json
  | .str s => if isNullString s then .null else .str s
  | .arr xs => .arr (normalizeList xs)
  | .obj kvs => .obj (normalizeFields kvs)
  | j => j

/-- Element-wise normalize_null_strings over an array. -/
def normalizeList : List Json → List Json
  | [] => []
  | x :: xs => normalizeNullStrings x :: normalizeList xs

/-- Value-wise normalize_null_strings over object fields. -/
def normalizeFields : List (List Char × Json) → List (List Char × Json)
  | [] => []
  | (k, v) :: kvs => (k, normalizeNullStrings v) :: normalizeFields kvs
end

mutual
/-- Does the value contain, at any depth, a string that the null-string
test matches?  This is the observation the null-string normalization
property talks about. -/
def hasNullString : Json → Bool
  | .str s => isNullString s
  | .arr xs => hasNullStringList xs
  | .obj kvs => hasNullStringFields kvs
  | _ => false

/-- hasNullString over the elements of an array. -/
def hasNullStringList : List Json → Bool
  | [] => false
  | x :: xs => hasNullString x || hasNullStringList xs

/-- hasNullString over the values of object fields. -/
def hasNullStringFields : List (List Char × Json) → Bool
  | [] => false
  | (_, v) :: kvs => hasNullString v || hasNullStringFields kvs
end

/-- One iteration of the required-field loop in
ensure_required_fields_present: keep a present non-null value, otherwise
insert JSON null under the field name. -/
def ensureFieldStep (kvs : List (List Char × Json)) (field : List Char) :
    List (List Char × Json) :=
  match lookupKV kvs field with
  | some val => if val.isNull then insertKV kvs field Json.null else kvs
  | none => insertKV kvs field Json.null

/-- ensure_required_fields_present (workflow_steps/mod.rs): on an object,
walk the required field names and fill the missing or null ones with JSON
null; on any other value shape, do nothing. -/
def ensureRequiredFieldsPresent (v : Json) (requiredFields : List (List Char)) : Json :=
  match v with
  | .obj kvs => .obj (requiredFields.foldl ensureFieldStep kvs)
  | v => v

/-- The merge step of LlmParameterResolver::resolve: when the original
planner args were an object, its non-null entries win over the resolver
output (only reachable when both are objects). -/
def mergeOriginal (input v : Json) : Json :=
  match input, v with
  | .obj orig, .obj kvs =>
    .obj (orig.foldl (fun acc kv => if kv.2.isNull then acc else insertKV acc kv.1 kv.2) kvs)
  | _, _ => v

/-- LlmParameterResolver::resolve (workflow_steps/mod.rs, lines 69-324),
with the two LLM round trips abstracted: firstPass is the JSON object
parsed from the extractor output (none when that parse fails, which makes
resolve propagate the error), and audit is the JSON parsed from the
parameter auditor output (none when the audit call or its parse fails, in
which case the code falls back to the first pass).  The control flow —
the object fast path, audit fallback, normalize_null_strings, the merge
with the original args and ensure_required_fields_present — follows the
source. -/
def LlmParameterResolver.resolve (requiredFields : List (List Char)) (input : Json)
    (firstPass : Option Json) (audit : Option Json) : Option Json :=
  if input.isObj then some input
  else
    match firstPass with
    | none => none
    | some v =>
      let fixed := audit.getD v
      let nv := normalizeNullStrings fixed
      let merged := mergeOriginal input nv
      some (ensureRequiredFieldsPresent merged requiredFields)

/-!
## src/robot_core/src/utils/mod.rs — buses, consumed events, elicitation flags
-/

/-- InputEvent (utils/mod.rs): one user message.  Event ids (Uuid in the
source) are modelled as naturals; source_meta is not consulted by any
modelled code path and is omitted. -/
structure InputEv where
  id : Nat
  source : List Char
  sessionId : Option (List Char)
  payload : Json

/-- Output styles (core/persona.rs OutputStyle), with a constructor for
the free-form persona style string the session actor copies into its
outputs. -/
inductive OutputStyle where
  | neutral : OutputStyle
  | formal : OutputStyle
  | friendly : OutputStyle
  | custom (s : List Char) : OutputStyle
deriving Repr, DecidableEq

/-- OutputEvent (utils/mod.rs): one outbound notification. -/
structure OutputEv where
  target : List Char
  source : List Char
  sessionId : Option (List Char)
  content : Json
  style : OutputStyle

/-- mark_event_consumed (utils/mod.rs): insert the event id into the
global consumed-event set. -/
def markEventConsumed (s : Finset Nat) (id : Nat) : Finset Nat :=
  insert id s

/-- check_and_remove_consumed_event (utils/mod.rs): remove the id from the
set and report whether it was present. -/
def checkAndRemoveConsumedEvent (s : Finset Nat) (id : Nat) : Bool × Finset Nat :=
  (id ∈ s, s.erase id)

/-- set_elicitation_active (utils/mod.rs): insert or remove a session id
in the elicitation-active set.  The source defines and exports this
function, but no code in the repository ever calls it. -/
def setElicitationActive (s : Finset (List Char)) (sessionId : List Char) (active : Bool) :
    Finset (List Char) :=
  if active then insert sessionId s else s.erase sessionId

/-- is_elicitation_active (utils/mod.rs). -/
def isElicitationActive (s : Finset (List Char)) (sessionId : List Char) : Bool :=
  sessionId ∈ s

/-!
## src/robot_core/src/mcp/rmcp_client.rs
-/

/-- The predefined cancel-phrase list of is_cancel_text
(rmcp_client.rs, lines 52-64), in source order. -/
def cancelWords : List (List Char) :=
  [cs "算了", cs "不用了", cs "取消", cs "停止", cs "不需要了",
   cs "stop", cs "cancel", cs "never mind", cs "nevermind", cs "quit", cs "exit"]

/-- is_cancel_text (rmcp_client.rs, lines 47-66): trim and ASCII-lowercase
the text; an empty result never cancels, otherwise any cancel word
occurring as a substring does. -/
def isCancelText (s : List Char) : Bool :=
  let t := lowerAscii (trimChars s)
  if t.isEmpty then false
  else cancelWords.any (fun w => containsSub t w)

/-- should_reconnect (rmcp_client.rs, lines 408-417): the transport-error
substring test on the lowercased error text, in source order. -/
def shouldReconnect (errorText : List Char) : Bool :=
  let s := lowerAscii errorText
  containsSub s (cs "broken pipe")
    || containsSub s (cs "connection")
    || containsSub s (cs "transport")
    || containsSub s (cs "closed")
    || containsSub s (cs "eof")
    || containsSub s (cs "reset by peer")
    || containsSub s (cs "os error")

/-- The cached-connection state of RmcpStdIoClient: the service slot, plus
a supply of fresh connection identifiers.  Connections are numbered so the
model can state that a retry happens on a fresh connection; the invariant
connInv below says every cached identifier was drawn from the supply. -/
structure ConnState where
  cached : Option Nat
  nextConn : Nat

/-- The invariant relating a cached connection to the fresh supply. -/
def connInv (s : ConnState) : Prop :=
  ∀ c, s.cached = some c → c < s.nextConn

/-- ensure_connected (rmcp_client.rs, lines 392-406): connect and cache a
service when none is cached. -/
def ensureConnected (s : ConnState) : ConnState :=
  if s.cached.isSome then s else { cached := some s.nextConn, nextConn := s.nextConn + 1 }

/-- with_service_retry (rmcp_client.rs, lines 419-465).  The operation f
is modelled as a function from the connection it runs on to its outcome.
The result records the final connection state, the list of connections the
operation was attempted on (in order), and the final outcome.  A first
failure whose text passes should_reconnect drops the cached service,
reconnects and runs the operation once more, the second outcome being
final; any other first failure propagates. -/
def withServiceRetry (T : Type) (f : Nat → Except (List Char) T) (s0 : ConnState) :
    ConnState × List Nat × Except (List Char) T :=
  let s1 := ensureConnected s0
  match s1.cached with
  | none => (s1, [], .error (cs "MCP 未连接"))
  | some c1 =>
    match f c1 with
    | .ok v => (s1, [c1], .ok v)
    | .error e =>
      if shouldReconnect e then
        let s2 := ensureConnected { s1 with cached := none }
        match s2.cached with
        | none => (s2, [c1], .error (cs "MCP 未连接"))
        | some c2 => (s2, [c1, c2], f c2)
      else (s1, [c1], .error e)

/-- The per-value missing test of RmcpStdIoClient::call (lines 485-493):
null, empty or all-whitespace strings, the string null (case-insensitive,
trimmed) and empty arrays count as missing. -/
def isMissingArgValue : Json → Bool
  | .null => true
  | .str s => (trimChars s).isEmpty || isNullString s
  | .arr a => a.isEmpty
  | _ => false

/-- The missing_fields collection of RmcpStdIoClient::call (lines
479-500): for object args, the required fields that are absent or whose
value is missing per isMissingArgValue, in order; for any other args
shape the loop body never runs. -/
def missingFields (requiredFields : List (List Char)) (args : Json) : List (List Char) :=
  match args with
  | .obj kvs =>
    requiredFields.filter (fun f =>
      match lookupKV kvs f with
      | none => true
      | some v => isMissingArgValue v)
  | _ => []

/-- The meta-key test of the elicitation branch in RmcpStdIoClient::call
(line 514): the session_id key and double-underscore-prefixed keys are
forwarded even when eliciting. -/
def isMetaKey (k : List Char) : Bool :=
  k == cs "session_id" || startsWithL (cs "__") k

/-- The argument object RmcpStdIoClient::call sends to the server (lines
501-535).  When a required field is missing the call keeps only the meta
keys (session_id and double-underscore keys) and sends no arguments at all
only when none survive; otherwise object args pass through unchanged and
non-object args become no arguments. -/
def callArguments (requiredFields : List (List Char)) (args : Json) : Option Json :=
  let missing := missingFields requiredFields args
  if !missing.isEmpty then
    match args with
    | .obj kvs =>
      let meta := kvs.filter (fun kv => isMetaKey kv.1)
      if meta.isEmpty then none else some (.obj meta)
    | _ => none
  else if args.isObj then some args
  else none

/-!
## serde_json compact serialization (Value::to_string), used by the
elicitation handler's payload fallback and the background prompt text.
-/

/-- The double-quote character. -/
def dquote : Char := Char.ofNat 34

/-- The backslash character. -/
def bslash : Char := Char.ofNat 92

/-- The opening-brace character. -/
def lbrace : Char := Char.ofNat 123

/-- The closing-brace character. -/
def rbrace : Char := Char.ofNat 125

/-- One hexadecimal digit. -/
def hexDigit (n : Nat) : Char :=
  if n < 10 then Char.ofNat (48 + n) else Char.ofNat (87 + n)

/-- serde_json string escaping for one character: quote, backslash, the
five short control escapes, a u-escape for other control characters, and
everything else verbatim. -/
def escapeChar (c : Char) : List Char :=
  if c = dquote then [bslash, dquote]
  else if c = bslash then [bslash, bslash]
  else if c = Char.ofNat 8 then [bslash, Char.ofNat 98]
  else if c = Char.ofNat 9 then [bslash, Char.ofNat 116]
  else if c = Char.ofNat 10 then [bslash, Char.ofNat 110]
  else if c = Char.ofNat 12 then [bslash, Char.ofNat 102]
  else if c = Char.ofNat 13 then [bslash, Char.ofNat 114]
  else if c.toNat < 32 then
    [bslash, Char.ofNat 117, Char.ofNat 48, Char.ofNat 48,
     hexDigit (c.toNat / 16), hexDigit (c.toNat % 16)]
  else [c]

/-- Comma-separated concatenation. -/
def joinComma : List (List Char) → List Char
  | [] => []
  | [x] => x
  | x :: xs => x ++ [','] ++ joinComma xs

mutual
/-- Compact serde_json serialization of a value (Value::to_string). -/
def jsonToString : Json → List Char
  | .null => cs "null"
  | .bool true => cs "true"
  | .bool false => cs "false"
  | .num n => (toString n).data
  | .str s => dquote :: (s.flatMap escapeChar) ++ [dquote]
  | .arr xs => '[' :: joinComma (jsonToStringList xs) ++ [']']
  | .obj kvs => lbrace :: joinComma (jsonToStringFields kvs) ++ [rbrace]

/-- Serialization of array elements. -/
def jsonToStringList : List Json → List (List Char)
  | [] => []
  | x :: xs => jsonToString x :: jsonToStringList xs

/-- Serialization of object entries. -/
def jsonToStringFields : List (List Char × Json) → List (List Char)
  | [] => []
  | (k, v) :: kvs =>
    (dquote :: (k.flatMap escapeChar) ++ [dquote] ++ [':'] ++ jsonToString v)
      :: jsonToStringFields kvs
end

/-!
## The elicitation handler (RobotClientHandler::create_elicitation)
-/

/-- The mutable SharedCtx of RmcpStdIoClient (rmcp_client.rs, lines
38-45); request ids are modelled as naturals. -/
structure SharedCtx where
  lastResult : Option Json
  lastElicitationMessage : Option (List Char)
  lastElicitationSchema : Option Json
  previewOnly : Bool
  currentCallToolRequestId : Option Nat

/-- Observable effects of the MCP client handler, in program order. -/
inductive McpEffect where
  | emitBus (o : OutputEv) : McpEffect
  | awaitInputBus : McpEffect
  | markConsumed (id : Nat) : McpEffect
  | notifyCancelled (requestId : Nat) (reason : List Char) : McpEffect
  | llmChat : McpEffect

/-- Elicitation actions of the MCP protocol result. -/
inductive ElicitAction where
  | accept : ElicitAction
  | decline : ElicitAction
  | cancel : ElicitAction
deriving Repr, DecidableEq

/-- CreateElicitationResult: the action plus optional content. -/
structure ElicitResult where
  action : ElicitAction
  content : Option Json

/-- The OutputEvent the elicitation handler publishes before awaiting the
input bus (rmcp_client.rs, lines 125-134): message and schema, source mcp. -/
def elicitPromptOutput (sid : List Char) (message : List Char) (schema : Json) : OutputEv :=
  { target := cs "default", source := cs "mcp", sessionId := some sid,
    content := .obj [(cs "message", .str message), (cs "schema", schema)],
    style := .neutral }

/-- The tool_cancel OutputEvent of the cancel branch (lines 163-172). -/
def toolCancelOutput (sid : List Char) : OutputEv :=
  { target := cs "default", source := cs "mcp", sessionId := some sid,
    content := .obj [(cs "type", .str (cs "tool_cancel")),
                     (cs "message", .str (cs "已取消本次工具调用"))],
    style := .neutral }

/-- The phase of create_elicitation before the handler suspends on the
input bus (rmcp_client.rs, lines 104-153): stash the prompt and schema in
SharedCtx, emit the prompt OutputEvent on the output bus, then subscribe
and await.  The elicitation-active set is passed through to record what
this phase does to it: the source never touches it. -/
def createElicitationAwaitPhase (sh : SharedCtx) (active : Finset (List Char))
    (sid : List Char) (message : List Char) (schema : Json) :
    SharedCtx × Finset (List Char) × List McpEffect :=
  ({ sh with lastElicitationMessage := some message, lastElicitationSchema := some schema },
   active,
   [.emitBus (elicitPromptOutput sid message schema), .awaitInputBus])

/-- The text extraction from the awaited event (rmcp_client.rs, lines
154-159): the payload field content when it is a string, otherwise the
serialized payload. -/
def extractElicitInput (payload : Json) : List Char :=
  match payload.getKey (cs "content") with
  | some (.str s) => s
  | _ => jsonToString payload

/-- The code-fence stripping shared by the resolver, the auditor and the
elicitation handler: the slice between the first opening brace and the
last closing brace when both exist in that order, the whole text
otherwise. -/
def braceSlice (s : List Char) : List Char :=
  match List.findIdx? (fun c => c = lbrace) s with
  | none => s
  | some start =>
    match List.findIdx? (fun c => c = rbrace) s.reverse with
    | none => s
    | some ridx =>
      let stop := s.length - 1 - ridx
      if start ≤ stop then (s.drop start).take (stop - start + 1) else s

/-- The phase of create_elicitation after an input event for this session
arrived (rmcp_client.rs, lines 154-285).  parse models
serde_json::from_str on free text; llm models the chat round trip (none
for a failed call, otherwise the returned text).  The cancel branch marks
the event consumed, publishes the tool_cancel OutputEvent, sends the
cancelled notification for the recorded request id when one is recorded,
and returns action Cancel with no content.  The accept branches mark the
event consumed and return the parsed content; parse failures surface as
protocol errors. -/
def createElicitationAnswerPhase (parse : List Char → Option Json)
    (llm : Option (List Char)) (sh : SharedCtx) (sid : List Char) (ev : InputEv) :
    List McpEffect × Except (List Char) ElicitResult :=
  let input := extractElicitInput ev.payload
  if isCancelText input then
    let tail :=
      match sh.currentCallToolRequestId with
      | some rid => [McpEffect.notifyCancelled rid (cs "user cancelled")]
      | none => []
    ([McpEffect.markConsumed ev.id, McpEffect.emitBus (toolCancelOutput sid)] ++ tail,
     .ok { action := .cancel, content := none })
  else
    match parse input with
    | some v => ([.markConsumed ev.id], .ok { action := .accept, content := some v })
    | none =>
      match llm with
      | none => ([.llmChat], .error (cs "LLM transformation failed"))
      | some text =>
        match parse (braceSlice (trimChars text)) with
        | some v =>
          ([.llmChat, .markConsumed ev.id], .ok { action := .accept, content := some v })
        | none => ([.llmChat], .error (cs "Failed to parse LLM output as JSON"))

/-!
## src/robot_core/src/core/session.rs — the session actor
-/

/-- The single-quote character. -/
def squote : Char := Char.ofNat 39

/-- Persona (core/persona.rs), reduced to the fields the session actor
reads when building outputs. -/
structure Persona where
  name : List Char
  style : OutputStyle
  uuid : List Char

/-- StepStatus (workflow_steps/mod.rs, lines 10-14). -/
inductive StepStatus where
  | Continue : StepStatus
  | Stop : StepStatus
  | WaitUser (prompt : List Char) : StepStatus

/-- StepSpec (utils/mod.rs), with the dependencies field its
constructors in decision_engine.rs and its consumers in session.rs and
workflow_steps/mod.rs agree on. -/
inductive StepSpec where
  | memory : StepSpec
  | profile : StepSpec
  | relationship : StepSpec
  | tool (name : List Char) (args : Json) (isBackground : Bool)
      (dependencies : List Nat) : StepSpec

/-- WorkflowPlan: ordered steps plus optional planner reasoning. -/
structure WorkflowPlan where
  steps : List StepSpec
  reasoning : Option (List Char)

/-- Context (utils/mod.rs, lines 44-52). -/
structure Context where
  persona : Persona
  memory : Json
  profile : Json
  relationships : Json
  inputText : List Char
  sessionId : Option (List Char)

/-- serde serialization of a StepSpec (externally tagged): unit variants
become their name as a string, the Tool variant becomes an object under
the key Tool.  This is the representation the resolver's workflow-context
walk reads back. -/
def stepSpecToJson : StepSpec → Json
  | .memory => .str (cs "Memory")
  | .profile => .str (cs "Profile")
  | .relationship => .str (cs "Relationship")
  | .tool name args isBackground dependencies =>
    .obj [(cs "Tool", .obj
      [(cs "name", .str name), (cs "args", args),
       (cs "is_background", .bool isBackground),
       (cs "dependencies", .arr (dependencies.map (fun d => Json.num (Int.ofNat d))))])]

/-- serde serialization of a WorkflowPlan. -/
def planToJson (p : WorkflowPlan) : Json :=
  .obj [(cs "steps", .arr (p.steps.map stepSpecToJson)),
        (cs "reasoning", match p.reasoning with | some r => .str r | none => .null)]

/-- The current_step_index update at the top of each execute_workflow
iteration (session.rs, lines 257-261): only performed when memory has a
workflow object. -/
def setCurrentStepIndex (memory : Json) (i : Nat) : Json :=
  match memory with
  | .obj kvs =>
    match lookupKV kvs (cs "workflow") with
    | some (.obj wf) =>
      .obj (insertKV kvs (cs "workflow")
        (.obj (insertKV wf (cs "current_step_index") (.num (Int.ofNat i)))))
    | _ => memory
  | _ => memory

/-- IntentDecision (core/intent.rs): respond or ignore. -/
inductive IntentDecision where
  | respond : IntentDecision
  | ignore : IntentDecision

/-- Observable effects of the session actor, in program order.  Output
dispatch to the routed handler set is collapsed into dispatchOutput; the
spawning of a background step together with its task-manager registration
is collapsed into spawnBackground. -/
inductive SessEffect where
  | perceive : SessEffect
  | intentEval : SessEffect
  | decide : SessEffect
  | runStep (i : Nat) : SessEffect
  | stepFailed (i : Nat) (error : List Char) : SessEffect
  | dispatchOutput (o : OutputEv) : SessEffect
  | spawnBackground (i : Nat) (name uuid prompt : List Char) : SessEffect

/-- The source and session id fix-up applied to a step's output before
dispatch (session.rs, lines 366-370). -/
def fixOutput (o : OutputEv) (evSource : List Char) (sid : List Char) : OutputEv :=
  { o with source := evSource,
           sessionId := match o.sessionId with | none => some sid | s => s }

/-- The prompt OutputEvent emitted when a step returns WaitUser
(session.rs, lines 397-407). -/
def waitUserPromptOutput (evSource sid : List Char) (persona : Persona)
    (prompt : List Char) : OutputEv :=
  { target := cs "default", source := evSource, sessionId := some sid,
    content := .obj [(cs "type", .str (cs "text")), (cs "text", .str prompt)],
    style := persona.style }

/-- The original_prompt recorded for a background task (session.rs, lines
291-301): the input text, with the serialized args appended unless they
are trivial. -/
def originalPromptText (inputText : List Char) (taskArgs : Option Json) : List Char :=
  match taskArgs with
  | some args =>
    let argsStr := jsonToString args
    if argsStr == cs "null" || argsStr == [lbrace, rbrace] || argsStr == cs "[]" then
      inputText
    else inputText ++ cs " | args=" ++ argsStr
  | none => inputText

/-- The notification that a background task started (session.rs, lines
337-346). -/
def startedBackgroundOutput (evSource sid : List Char) (persona : Persona)
    (name uuid : List Char) : OutputEv :=
  { target := cs "default", source := evSource, sessionId := some sid,
    content := .obj [(cs "type", .str (cs "text")),
      (cs "text", .str ((cs "Started background task " ++ [squote]) ++ name
        ++ ([squote] ++ cs " (ID: ") ++ uuid ++ cs ")"))],
    style := persona.style }

/-- The no-capability OutputEvent emitted when the decision engine fails
with NO_TOOLS_AVAILABLE (session.rs, lines 224-232). -/
def noCapabilityOutput (evSource sid : List Char) (persona : Persona) : OutputEv :=
  { target := cs "default", source := evSource, sessionId := some sid,
    content := .obj [(cs "content", .str (cs "没有可用执行能力"))],
    style := persona.style }

/-- The input-text extraction of the session actor (session.rs, lines
143-157): the payload string field line, else content, else empty. -/
def extractText (payload : Json) : List Char :=
  match payload.getKey (cs "line") with
  | some (.str s) => s
  | _ =>
    match payload.getKey (cs "content") with
    | some (.str s) => s
    | _ => []

/-- The environment a session actor runs in: its id and persona, plus
oracles for the trait objects it drives.  run models
build_step(spec, resolver).run on the mutable context (returning the
mutated context, the status and the optional output); newUuid models
Uuid::new_v4 for the background spawn at a step index; perceiveO, intentO
and decideO model the perception, intent and decision-engine round trips
for the event being handled. -/
structure SessionEnv where
  sessionId : List Char
  persona : Persona
  run : Nat → StepSpec → Context → Except (List Char) (Context × StepStatus × Option OutputEv)
  newUuid : Nat → List Char
  perceiveO : InputEv → Except (List Char) Unit
  intentO : Except (List Char) IntentDecision
  decideO : Except (List Char) WorkflowPlan

/-- The process-global mutable state the session actor consults. -/
structure GlobalState where
  consumed : Finset Nat
  active : Finset (List Char)

/-- The actor-owned state: pending_execution (session.rs, line 45).
Being an Option, at most one suspended execution is held per session. -/
structure SessionState where
  pending : Option (List StepSpec × Nat × Context)

/-- The loop body of execute_workflow (session.rs, lines 247-436) over the
remaining steps, carrying the full step list for suspension.  Background
tool steps are spawned and registered without waiting; foreground steps
run, dispatch their output, and then honour their status: Continue moves
on, Stop breaks, WaitUser emits the prompt, stores
(full step list, current index, mutated context) as the pending
execution and returns; a step error breaks the loop. -/
def execGo (env : SessionEnv) (steps : List StepSpec) :
    List StepSpec → Nat → Context → List Char →
    Option (List StepSpec × Nat × Context) × List SessEffect
  | [], _, _, _ => (none, [])
  | spec :: rest, i, ctx, evSource =>
    let ctx1 := { ctx with memory := setCurrentStepIndex ctx.memory i }
    let bgInfo : Bool × List Char × Option Json :=
      match spec with
      | .tool name args isBackground _ => (isBackground, name, some args)
      | _ => (false, cs "background_task", none)
    if bgInfo.1 then
      let uuid := env.newUuid i
      let prompt := originalPromptText ctx1.inputText bgInfo.2.2
      let next := execGo env steps rest (i + 1) ctx1 evSource
      (next.1,
       SessEffect.spawnBackground i bgInfo.2.1 uuid prompt
         :: SessEffect.dispatchOutput
              (startedBackgroundOutput evSource env.sessionId env.persona bgInfo.2.1 uuid)
         :: next.2)
    else
      match env.run i spec ctx1 with
      | .error e => (none, [.runStep i, .stepFailed i e])
      | .ok (ctx2, status, out) =>
        let outEffs : List SessEffect :=
          match out with
          | some o => [.dispatchOutput (fixOutput o evSource env.sessionId)]
          | none => []
        match status with
        | .WaitUser prompt =>
          (some (steps, i, ctx2),
           SessEffect.runStep i :: outEffs
             ++ [.dispatchOutput (waitUserPromptOutput evSource env.sessionId env.persona prompt)])
        | .Stop => (none, SessEffect.runStep i :: outEffs)
        | .Continue =>
          let next := execGo env steps rest (i + 1) ctx2 evSource
          (next.1, SessEffect.runStep i :: outEffs ++ next.2)

/-- execute_workflow entered at a start index (session.rs, line 255:
iterate the steps, skipping to start_idx). -/
def executeWorkflow (env : SessionEnv) (steps : List StepSpec) (startIdx : Nat)
    (ctx : Context) (evSource : List Char) :
    Option (List StepSpec × Nat × Context) × List SessEffect :=
  execGo env steps (steps.drop startIdx) startIdx ctx evSource

/-- The memory initialized for a fresh plan (session.rs, lines 212-217). -/
def initialPlanContext (env : SessionEnv) (inputText : List Char)
    (plan : WorkflowPlan) : Context :=
  { persona := env.persona,
    memory := .obj [(cs "workflow", .obj
      [(cs "plan", planToJson plan), (cs "current_step_index", .num 0)])],
    profile := .null, relationships := .null,
    inputText := inputText, sessionId := some env.sessionId }

/-- RobotSession::handle_input (session.rs, lines 102-245).  First the
consumed-event check (always removing the id), then the
elicitation-active check, then text extraction; a pending execution is
taken and resumed with the new input text; otherwise perception, intent
and the decision engine run, and a decided plan is executed from step 0
on a fresh context. -/
def handleInput (env : SessionEnv) (g : GlobalState) (st : SessionState) (ev : InputEv) :
    GlobalState × SessionState × List SessEffect :=
  let checked := checkAndRemoveConsumedEvent g.consumed ev.id
  let g1 : GlobalState := { g with consumed := checked.2 }
  if checked.1 then (g1, st, [])
  else
    let sidKey := ev.sessionId.getD ev.source
    if isElicitationActive g1.active sidKey then (g1, st, [])
    else
      let inputText := extractText ev.payload
      match st.pending with
      | some (steps, idx, ctx) =>
        let res := executeWorkflow env steps idx { ctx with inputText := inputText } ev.source
        (g1, ⟨res.1⟩, res.2)
      | none =>
        match env.perceiveO ev with
        | .error _ => (g1, st, [.perceive])
        | .ok _ =>
          match env.intentO with
          | .error _ => (g1, st, [.perceive, .intentEval])
          | .ok .ignore => (g1, st, [.perceive, .intentEval])
          | .ok .respond =>
            match env.decideO with
            | .ok plan =>
              let ctx0 := initialPlanContext env inputText plan
              let res := executeWorkflow env plan.steps 0 ctx0 ev.source
              (g1, ⟨res.1⟩, [.perceive, .intentEval, .decide] ++ res.2)
            | .error e =>
              if containsSub e (cs "NO_TOOLS_AVAILABLE") then
                (g1, st, [.perceive, .intentEval, .decide,
                  .dispatchOutput (noCapabilityOutput ev.source env.sessionId env.persona)])
              else (g1, st, [.perceive, .intentEval, .decide])

/-!
## src/robot_core/src/core/tasks/manager.rs — the background task manager
-/

/-- BackgroundTask (manager.rs, lines 19-25); the JoinHandle is modelled
by an abstract handle number, start_time by a timestamp number. -/
structure BackgroundTask where
  handle : Nat
  name : List Char
  startTime : Nat
  ordinal : Nat
  originalPrompt : List Char

instance : Inhabited BackgroundTask :=
  ⟨{ handle := 0, name := [], startTime := 0, ordinal := 0, originalPrompt := [] }⟩

/-- TaskSummary (manager.rs, lines 9-17). -/
structure TaskSummary where
  id : List Char
  name : List Char
  startTime : Nat
  status : List Char
  ordinal : Nat
  originalPrompt : List Char

/-- TaskManager state (manager.rs, lines 27-31): the id-keyed task map and
the atomic ordinal counter. -/
structure TaskManager where
  tasks : List (List Char × BackgroundTask)
  counter : Nat

/-- TaskManager::new. -/
def TaskManager.new : TaskManager := { tasks := [], counter := 0 }

/-- HashMap::insert on the task map: replace under an existing id, append
otherwise. -/
def insertTaskKV : List (List Char × BackgroundTask) → List Char → BackgroundTask →
    List (List Char × BackgroundTask)
  | [], key, v => [(key, v)]
  | (k, w) :: rest, key, v =>
    if k = key then (key, v) :: rest else (k, w) :: insertTaskKV rest key v

/-- HashMap::remove on the task map. -/
def eraseTaskKV : List (List Char × BackgroundTask) → List Char →
    List (List Char × BackgroundTask)
  | [], _ => []
  | (k, w) :: rest, key => if k = key then rest else (k, w) :: eraseTaskKV rest key

/-- HashMap::get on the task map. -/
def lookupTaskKV : List (List Char × BackgroundTask) → List Char → Option BackgroundTask
  | [], _ => none
  | (k, w) :: rest, key => if k = key then some w else lookupTaskKV rest key

/-- TaskManager::add_task (manager.rs, lines 41-57): fetch_add the counter
and store the task with ordinal old-counter + 1 under the given id. -/
def TaskManager.addTask (m : TaskManager) (id name originalPrompt : List Char)
    (handle startTime : Nat) : TaskManager :=
  let ordinal := m.counter + 1
  { tasks := insertTaskKV m.tasks id
      { handle := handle, name := name, startTime := startTime,
        ordinal := ordinal, originalPrompt := originalPrompt },
    counter := m.counter + 1 }

/-- TaskManager::remove_task (manager.rs, lines 59-61). -/
def TaskManager.removeTask (m : TaskManager) (id : List Char) : TaskManager :=
  { m with tasks := eraseTaskKV m.tasks id }

/-- TaskManager::list_tasks (manager.rs, lines 63-76). -/
def TaskManager.listTasks (m : TaskManager) : List TaskSummary :=
  m.tasks.map (fun kv =>
    { id := kv.1, name := kv.2.name, startTime := kv.2.startTime,
      status := cs "Running", ordinal := kv.2.ordinal,
      originalPrompt := kv.2.originalPrompt })

/-- TaskManager::cancel_task (manager.rs, lines 78-85): abort and remove
when present, reporting presence. -/
def TaskManager.cancelTask (m : TaskManager) (id : List Char) : Bool × TaskManager :=
  match lookupTaskKV m.tasks id with
  | some _ => (true, { m with tasks := eraseTaskKV m.tasks id })
  | none => (false, m)

/-- One operation against a task manager, for stating history-invariant
properties. -/
inductive TMOp where
  | add (id name prompt : List Char) (handle startTime : Nat) : TMOp
  | remove (id : List Char) : TMOp
  | cancel (id : List Char) : TMOp

/-- Apply one operation. -/
def applyTMOp (m : TaskManager) : TMOp → TaskManager
  | .add id name prompt handle startTime => m.addTask id name prompt handle startTime
  | .remove id => m.removeTask id
  | .cancel id => (m.cancelTask id).2

/-- Apply a sequence of operations. -/
def runTMOps (m : TaskManager) : List TMOp → TaskManager
  | [] => m
  | op :: ops => runTMOps (applyTMOp m op) ops

/-- The ordinals the add operations of a sequence assign, in order. -/
def assignedOrdinals (m : TaskManager) : List TMOp → List Nat
  | [] => []
  | op :: ops =>
    match op with
    | .add _ _ _ _ _ => (m.counter + 1) :: assignedOrdinals (applyTMOp m op) ops
    | _ => assignedOrdinals (applyTMOp m op) ops

/-- The registry ids of a task manager. -/
def TaskManager.ids (m : TaskManager) : List (List Char) := m.tasks.map Prod.fst

/-!
## Auxiliary observations and concrete fixtures
-/

/-- Is a step spec a background tool step (the test at session.rs, lines
265-270)? -/
def isBackgroundSpec : StepSpec → Bool
  | .tool _ _ isBackground _ => isBackground
  | _ => false

/-- True of every session effect except the perception, intent and
planning stages; resuming a pending execution must only produce such
effects. -/
def noPlanningEffect : SessEffect → Bool
  | .perceive => false
  | .intentEval => false
  | .decide => false
  | _ => true

/-- A concrete persona used by witness instances. -/
def personaW : Persona := { name := cs "robot", style := .neutral, uuid := cs "u" }

/-- A concrete session environment whose steps all stop immediately, used
by witness instances that never reach the step oracle. -/
def envW : SessionEnv :=
  { sessionId := cs "s", persona := personaW,
    run := fun _ _ c => .ok (c, .Stop, none),
    newUuid := fun _ => [],
    perceiveO := fun _ => .ok (),
    intentO := .ok .respond,
    decideO := .error [] }

/-- A concrete session environment whose step oracle always suspends with
a confirmation prompt, used by the suspension witness. -/
def envW8 : SessionEnv :=
  { envW with run := fun _ _ c => .ok (c, .WaitUser (cs "confirm?"), none) }

/-- A concrete context used by the suspension witness. -/
def ctxW8 : Context :=
  { persona := personaW, memory := .null, profile := .null, relationships := .null,
    inputText := cs "hi", sessionId := some (cs "s") }

/-- A concrete operation used by the retry witness: the first connection
fails with a transport error, the fresh one succeeds. -/
def fW (c : Nat) : Except (List Char) Nat :=
  if c = 0 then .error (cs "connection reset") else .ok 42

/-- A concrete shared context with a recorded request id, used by the
cancellation witness. -/
def shW : SharedCtx :=
  { lastResult := none, lastElicitationMessage := none, lastElicitationSchema := none,
    previewOnly := false, currentCallToolRequestId := some 3 }

/-!
## Helper lemmas
-/

theorem startsWithL_iff (p : List Char) : ∀ t, startsWithL p t = true ↔ ∃ r, t = p ++ r := by
  induction p with
  | nil => intro t; simp [startsWithL]
  | cons a ps ih =>
    intro t
    cases t with
    | nil => simp [startsWithL]
    | cons b t' =>
      simp only [startsWithL, Bool.and_eq_true, beq_iff_eq, ih, List.cons_append,
        List.cons.injEq]
      constructor
      · rintro ⟨h1, r, h2⟩
        exact ⟨r, h1.symm, h2⟩
      · rintro ⟨r, h1, h2⟩
        exact ⟨h1.symm, r, h2⟩

theorem containsSub_iff : ∀ t p : List Char, containsSub t p = true ↔ ∃ l r, t = l ++ p ++ r := by
  intro t
  induction t with
  | nil =>
    intro p
    have hunf : containsSub [] p = startsWithL p [] := by
      rw [containsSub]
      simp
    rw [hunf]
    simp only [startsWithL_iff]
    constructor
    · rintro ⟨r, h⟩
      exact ⟨[], r, by simpa using h⟩
    · rintro ⟨l, r, h⟩
      rcases List.nil_eq_append_iff.mp h with ⟨h1, h2⟩
      rcases List.append_eq_nil.mp h1 with ⟨h3, h4⟩
      subst h3
      subst h4
      subst h2
      exact ⟨[], rfl⟩
  | cons a t' ih =>
    intro p
    have hunf : containsSub (a :: t') p = (startsWithL p (a :: t') || containsSub t' p) := by
      rw [containsSub]
    rw [hunf]
    simp only [Bool.or_eq_true, startsWithL_iff, ih]
    constructor
    · rintro (⟨r, h⟩ | ⟨l, r, h⟩)
      · exact ⟨[], r, by simpa using h⟩
      · exact ⟨a :: l, r, by simp [h]⟩
    · rintro ⟨l, r, h⟩
      cases l with
      | nil => exact Or.inl ⟨r, by simpa using h⟩
      | cons b l' =>
        rw [List.cons_append, List.cons_append] at h
        injection h with h1 h2
        exact Or.inr ⟨l', r, h2⟩

theorem lookupKV_insertKV_self (k : List Char) (v : Json) :
    ∀ kvs, lookupKV (insertKV kvs k v) k = some v := by
  intro kvs
  induction kvs with
  | nil => simp [insertKV, lookupKV]
  | cons kv rest ih =>
    obtain ⟨k', v'⟩ := kv
    by_cases h : k' = k
    · simp [insertKV, h, lookupKV]
    · simp [insertKV, h, lookupKV, ih]

theorem lookupKV_insertKV_ne (k key : List Char) (v : Json) (h : k ≠ key) :
    ∀ kvs, lookupKV (insertKV kvs k v) key = lookupKV kvs key := by
  intro kvs
  induction kvs with
  | nil => simp [insertKV, lookupKV, h]
  | cons kv rest ih =>
    obtain ⟨k', v'⟩ := kv
    by_cases h2 : k' = k
    · subst h2
      simp [insertKV, lookupKV, h]
    · simp only [insertKV, if_neg h2, lookupKV]
      by_cases h3 : k' = key <;> simp [h3, ih]

theorem ensureFieldStep_self (kvs : List (List Char × Json)) (f : List Char) :
    lookupKV (ensureFieldStep kvs f) f =
      some (match lookupKV kvs f with
            | some v => if v.isNull then Json.null else v
            | none => Json.null) := by
  unfold ensureFieldStep
  cases h : lookupKV kvs f with
  | none => simp [lookupKV_insertKV_self]
  | some v =>
    by_cases hv : v.isNull <;> simp [hv, lookupKV_insertKV_self, h]

theorem ensureFieldStep_ne (kvs : List (List Char × Json)) (f g : List Char) (h : f ≠ g) :
    lookupKV (ensureFieldStep kvs f) g = lookupKV kvs g := by
  unfold ensureFieldStep
  cases lookupKV kvs f with
  | none => exact lookupKV_insertKV_ne _ _ _ h _
  | some v => by_cases hv : v.isNull <;> simp [hv, lookupKV_insertKV_ne _ _ _ h]

theorem ensureFold_preserve_isSome (fs : List (List Char)) :
    ∀ kvs f, (lookupKV kvs f).isSome = true →
      (lookupKV (fs.foldl ensureFieldStep kvs) f).isSome = true := by
  induction fs with
  | nil => intro kvs f h; simpa using h
  | cons f' fs ih =>
    intro kvs f h
    rw [List.foldl_cons]
    apply ih
    by_cases hf : f' = f
    · subst hf
      rw [ensureFieldStep_self]
      rfl
    · rw [ensureFieldStep_ne _ _ _ hf]
      exact h

theorem ensureFold_isSome (fs : List (List Char)) :
    ∀ kvs f, f ∈ fs → (lookupKV (fs.foldl ensureFieldStep kvs) f).isSome = true := by
  induction fs with
  | nil => intro kvs f h; cases h
  | cons f' fs ih =>
    intro kvs f hmem
    rw [List.foldl_cons]
    rcases List.mem_cons.mp hmem with h | h
    · subst h
      apply ensureFold_preserve_isSome
      rw [ensureFieldStep_self]
      rfl
    · exact ih _ _ h

theorem ensureFold_preserve_null (fs : List (List Char)) :
    ∀ kvs f, lookupKV kvs f = some Json.null →
      lookupKV (fs.foldl ensureFieldStep kvs) f = some Json.null := by
  induction fs with
  | nil => intro kvs f h; simpa using h
  | cons f' fs ih =>
    intro kvs f h
    rw [List.foldl_cons]
    apply ih
    by_cases hf : f' = f
    · subst hf
      rw [ensureFieldStep_self, h]
      rfl
    · rw [ensureFieldStep_ne _ _ _ hf]
      exact h

theorem ensureFold_null (fs : List (List Char)) :
    ∀ kvs f, f ∈ fs →
      (lookupKV kvs f = none ∨ lookupKV kvs f = some Json.null) →
      lookupKV (fs.foldl ensureFieldStep kvs) f = some Json.null := by
  induction fs with
  | nil => intro kvs f h; cases h
  | cons f' fs ih =>
    intro kvs f hmem hmiss
    rw [List.foldl_cons]
    by_cases hf : f' = f
    · subst hf
      apply ensureFold_preserve_null
      rw [ensureFieldStep_self]
      rcases hmiss with h | h <;> simp [h]
    · rcases List.mem_cons.mp hmem with h | h
      · exact absurd h.symm hf
      · apply ih _ _ h
        rw [ensureFieldStep_ne _ _ _ hf]
        exact hmiss

mutual
theorem normalize_no_null : ∀ j, hasNullString (normalizeNullStrings j) = false
  | .null => rfl
  | .bool _ => rfl
  | .num _ => rfl
  | .str s => by
    by_cases h : isNullString s
    · simp [normalizeNullStrings, h, hasNullString]
    · simp [normalizeNullStrings, h, hasNullString]
  | .arr xs => by
    simp only [normalizeNullStrings, hasNullString]
    exact normalizeList_no_null xs
  | .obj kvs => by
    simp only [normalizeNullStrings, hasNullString]
    exact normalizeFields_no_null kvs

theorem normalizeList_no_null : ∀ xs, hasNullStringList (normalizeList xs) = false
  | [] => rfl
  | x :: xs => by
    simp only [normalizeList, hasNullStringList, Bool.or_eq_false_iff]
    exact ⟨normalize_no_null x, normalizeList_no_null xs⟩

theorem normalizeFields_no_null : ∀ kvs, hasNullStringFields (normalizeFields kvs) = false
  | [] => rfl
  | (k, v) :: kvs => by
    simp only [normalizeFields, hasNullStringFields, Bool.or_eq_false_iff]
    exact ⟨normalize_no_null v, normalizeFields_no_null kvs⟩
end

theorem insertKV_null_no_null :
    ∀ kvs : List (List Char × Json), hasNullStringFields kvs = false →
      ∀ k, hasNullStringFields (insertKV kvs k Json.null) = false := by
  intro kvs
  induction kvs with
  | nil =>
    intro _ k
    simp [insertKV, hasNullStringFields, hasNullString]
  | cons kv rest ih =>
    obtain ⟨k', v⟩ := kv
    intro h k
    rw [hasNullStringFields, Bool.or_eq_false_iff] at h
    by_cases h2 : k' = k
    · simp [insertKV, h2, hasNullStringFields, hasNullString, h.2]
    · simp [insertKV, h2, hasNullStringFields, h.1, ih h.2 k]

theorem ensureFieldStep_no_null (kvs : List (List Char × Json)) (f : List Char)
    (h : hasNullStringFields kvs = false) :
    hasNullStringFields (ensureFieldStep kvs f) = false := by
  unfold ensureFieldStep
  cases lookupKV kvs f with
  | none => exact insertKV_null_no_null _ h f
  | some v =>
    by_cases hv : v.isNull <;> simp [hv, insertKV_null_no_null _ h f, h]

theorem ensureFold_no_null (fs : List (List Char)) :
    ∀ kvs, hasNullStringFields kvs = false →
      hasNullStringFields (fs.foldl ensureFieldStep kvs) = false := by
  induction fs with
  | nil => intro kvs h; simpa using h
  | cons f' fs ih =>
    intro kvs h
    rw [List.foldl_cons]
    exact ih _ (ensureFieldStep_no_null _ _ h)

theorem ensureRequired_no_null (v : Json) (fs : List (List Char))
    (h : hasNullString v = false) :
    hasNullString (ensureRequiredFieldsPresent v fs) = false := by
  cases v with
  | obj kvs =>
    rw [hasNullString] at h
    simp only [ensureRequiredFieldsPresent, hasNullString]
    exact ensureFold_no_null _ _ h
  | null => simpa using h
  | bool b => simpa using h
  | num n => simpa using h
  | str s => simpa using h
  | arr xs => simpa using h

theorem mergeOriginal_not_obj (input v : Json) (h : input.isObj = false) :
    mergeOriginal input v = v := by
  cases input <;> cases v <;> first | rfl | simp [Json.isObj] at h

theorem resolve_obj_eq (req : List (List Char)) (input : Json)
    (fp audit : Option Json) (h : input.isObj = true) :
    LlmParameterResolver.resolve req input fp audit = some input := by
  simp [LlmParameterResolver.resolve, h]

theorem resolve_not_obj_eq (req : List (List Char)) (input : Json) (v : Json)
    (audit : Option Json) (h : input.isObj = false) :
    LlmParameterResolver.resolve req input (some v) audit =
      some (ensureRequiredFieldsPresent
        (mergeOriginal input (normalizeNullStrings (audit.getD v))) req) := by
  simp [LlmParameterResolver.resolve, h]

theorem resolve_not_obj_none (req : List (List Char)) (input : Json)
    (audit : Option Json) (h : input.isObj = false) :
    LlmParameterResolver.resolve req input none audit = none := by
  simp [LlmParameterResolver.resolve, h]

/-!
## Claim theorems
-/

/-- C10: is_cancel_text(s) returns true exactly when the trimmed,
ASCII-lowercased form of s is non-empty and contains one of the fixed
cancel phrases as a substring anywhere within it; hence a longer answer
containing such a word cancels, while an empty or whitespace-only answer
never does. -/
theorem c10_is_cancel_text_spec (s : List Char) :
    isCancelText s = true ↔
      (lowerAscii (trimChars s) ≠ [] ∧
        ∃ w ∈ cancelWords, ∃ l r, lowerAscii (trimChars s) = l ++ w ++ r) := by
  simp only [isCancelText]
  by_cases h : (lowerAscii (trimChars s)).isEmpty
  · have h0 : lowerAscii (trimChars s) = [] := List.isEmpty_iff.mp h
    simp [h, h0]
  · have hne : lowerAscii (trimChars s) ≠ [] := fun hh => h (by simp [hh])
    simp [h, hne, List.any_eq_true, containsSub_iff]

/-- C4: after mark_event_consumed(id), the first
check_and_remove_consumed_event(id) returns true, the returned state no
longer holds the id, any check on a state without the id returns false
and leaves the state unchanged (so all later calls return false until the
id is marked again); and the session actor drops a consumed event as the
first action of its input handler, with no perception, intent, planning
or execution effects. -/
theorem c4_consumed_event_at_most_once (s : Finset Nat) (id : Nat) :
    (checkAndRemoveConsumedEvent (markEventConsumed s id) id).1 = true ∧
    id ∉ (checkAndRemoveConsumedEvent (markEventConsumed s id) id).2 ∧
    (∀ s2 : Finset Nat, id ∉ s2 → checkAndRemoveConsumedEvent s2 id = (false, s2)) ∧
    (∀ (env : SessionEnv) (g : GlobalState) (st : SessionState) (ev : InputEv),
      ev.id ∈ g.consumed →
      handleInput env g st ev = ({ g with consumed := g.consumed.erase ev.id }, st, [])) := by
  refine ⟨?_, ?_, ?_, ?_⟩
  · simp [checkAndRemoveConsumedEvent, markEventConsumed]
  · simp [checkAndRemoveConsumedEvent, markEventConsumed]
  · intro s2 h
    simp [checkAndRemoveConsumedEvent, h, Finset.erase_eq_of_not_mem h]
  · intro env g st ev h
    simp [handleInput, checkAndRemoveConsumedEvent, h]

/-- Witness for C4 at a concrete marked event. -/
theorem c4_consumed_event_at_most_once_witness :
    (1 ∈ ({1} : Finset Nat)) ∧
    handleInput envW ⟨{1}, ∅⟩ ⟨none⟩ ⟨1, cs "t", none, Json.null⟩ =
      (⟨({1} : Finset Nat).erase 1, (∅ : Finset (List Char))⟩, (⟨none⟩ : SessionState), []) :=
  ⟨by decide,
   (c4_consumed_event_at_most_once ∅ 1).2.2.2 envW ⟨{1}, ∅⟩ ⟨none⟩
     ⟨1, cs "t", none, Json.null⟩ (by decide)⟩

theorem applyTMOp_counter_le (m : TaskManager) (op : TMOp) :
    m.counter ≤ (applyTMOp m op).counter := by
  cases op with
  | add id name prompt h t =>
    simp only [applyTMOp, TaskManager.addTask]
    omega
  | remove id => simp [applyTMOp, TaskManager.removeTask]
  | cancel id =>
    simp only [applyTMOp, TaskManager.cancelTask]
    cases lookupTaskKV m.tasks id <;> simp

theorem assignedOrdinals_gt (ops : List TMOp) :
    ∀ m x, x ∈ assignedOrdinals m ops → m.counter < x := by
  induction ops with
  | nil => intro m x h; simp [assignedOrdinals] at h
  | cons op ops ih =>
    intro m x h
    cases op with
    | add id name prompt hd t =>
      simp only [assignedOrdinals] at h
      rcases List.mem_cons.mp h with h | h
      · omega
      · have h1 := ih _ _ h
        have h2 : (applyTMOp m (.add id name prompt hd t)).counter = m.counter + 1 := rfl
        omega
    | remove id =>
      simp only [assignedOrdinals] at h
      have h1 := ih _ _ h
      have h2 : (applyTMOp m (.remove id)).counter = m.counter := rfl
      omega
    | cancel id =>
      simp only [assignedOrdinals] at h
      have h1 := ih _ _ h
      have h2 := applyTMOp_counter_le m (.cancel id)
      omega

theorem assignedOrdinals_pairwise (ops : List TMOp) :
    ∀ m, List.Pairwise (· < ·) (assignedOrdinals m ops) := by
  induction ops with
  | nil => intro m; simp [assignedOrdinals]
  | cons op ops ih =>
    intro m
    cases op with
    | add id name prompt hd t =>
      simp only [assignedOrdinals]
      refine List.Pairwise.cons ?_ (ih _)
      intro x hx
      have h1 := assignedOrdinals_gt ops _ x hx
      have h2 : (applyTMOp m (.add id name prompt hd t)).counter = m.counter + 1 := rfl
      omega
    | remove id =>
      simp only [assignedOrdinals]
      exact ih _
    | cancel id =>
      simp only [assignedOrdinals]
      exact ih _

theorem mem_ids_insertTaskKV (k : List Char) (v : BackgroundTask) :
    ∀ ts g, g ∈ (insertTaskKV ts k v).map Prod.fst ↔ (g ∈ ts.map Prod.fst ∨ g = k) := by
  intro ts
  induction ts with
  | nil => intro g; simp [insertTaskKV]
  | cons kv rest ih =>
    obtain ⟨k', w⟩ := kv
    intro g
    by_cases h : k' = k
    · subst h
      simp [insertTaskKV]
      tauto
    · simp [insertTaskKV, h, ih]
      tauto

theorem insertTaskKV_ids_nodup (k : List Char) (v : BackgroundTask) :
    ∀ ts, (ts.map Prod.fst).Nodup → ((insertTaskKV ts k v).map Prod.fst).Nodup := by
  intro ts
  induction ts with
  | nil => intro _; simp [insertTaskKV]
  | cons kv rest ih =>
    obtain ⟨k', w⟩ := kv
    intro h
    rw [List.map_cons, List.nodup_cons] at h
    by_cases h2 : k' = k
    · subst h2
      simpa [insertTaskKV] using h
    · rw [show insertTaskKV ((k', w) :: rest) k v = (k', w) :: insertTaskKV rest k v by
        simp [insertTaskKV, h2]]
      rw [List.map_cons, List.nodup_cons]
      refine ⟨?_, ih h.2⟩
      intro hmem
      rcases (mem_ids_insertTaskKV k v rest k').mp hmem with hm | hm
      · exact h.1 hm
      · exact h2 hm

theorem eraseTaskKV_ids_sublist (key : List Char) :
    ∀ ts, ((eraseTaskKV ts key).map Prod.fst).Sublist (ts.map Prod.fst) := by
  intro ts
  induction ts with
  | nil => simp [eraseTaskKV]
  | cons kv rest ih =>
    obtain ⟨k', w⟩ := kv
    by_cases h : k' = key
    · simp only [eraseTaskKV, if_pos h, List.map_cons]
      exact (List.sublist_cons_self _ _)
    · simp only [eraseTaskKV, if_neg h, List.map_cons]
      exact ih.cons₂ _

theorem applyTMOp_ids_nodup (m : TaskManager) (op : TMOp) (h : m.ids.Nodup) :
    (applyTMOp m op).ids.Nodup := by
  cases op with
  | add id name prompt hd t =>
    exact insertTaskKV_ids_nodup _ _ _ h
  | remove id =>
    exact ((eraseTaskKV_ids_sublist id m.tasks).nodup h)
  | cancel id =>
    simp only [applyTMOp, TaskManager.cancelTask]
    cases lookupTaskKV m.tasks id with
    | none => exact h
    | some w => exact ((eraseTaskKV_ids_sublist id m.tasks).nodup h)

theorem runTMOps_ids_nodup (ops : List TMOp) :
    ∀ m : TaskManager, m.ids.Nodup → (runTMOps m ops).ids.Nodup := by
  induction ops with
  | nil => intro m h; simpa [runTMOps] using h
  | cons op ops ih =>
    intro m h
    rw [runTMOps]
    exact ih _ (applyTMOp_ids_nodup m op h)

/-- C9: along any operation sequence against one task manager, the
ordinals assigned by the add operations are pairwise strictly increasing
in order, and the registry keeps at most one entry per task id. -/
theorem c9_ordinal_monotonicity (m : TaskManager) (ops : List TMOp) :
    List.Pairwise (· < ·) (assignedOrdinals m ops) ∧
    (m.ids.Nodup → (runTMOps m ops).ids.Nodup) :=
  ⟨assignedOrdinals_pairwise ops m, fun h => runTMOps_ids_nodup ops m h⟩

/-- Witness for C9 on a fresh manager and two adds. -/
theorem c9_ordinal_monotonicity_witness :
    TaskManager.new.ids.Nodup ∧
    (runTMOps TaskManager.new
      [TMOp.add (cs "a") (cs "n") (cs "p") 0 0,
       TMOp.add (cs "b") (cs "n") (cs "p") 0 0]).ids.Nodup :=
  ⟨by simp [TaskManager.new, TaskManager.ids],
   (c9_ordinal_monotonicity TaskManager.new
      [TMOp.add (cs "a") (cs "n") (cs "p") 0 0,
       TMOp.add (cs "b") (cs "n") (cs "p") 0 0]).2
     (by simp [TaskManager.new, TaskManager.ids])⟩

/-- C7: for an operation run through with_service_retry, a first failure
whose text passes should_reconnect drops the cached connection and reruns
the operation exactly once on a fresh (distinct) connection, the second
outcome being final; any other first failure propagates without retry;
and no operation is ever attempted more than twice. -/
theorem c7_retry_policy (T : Type) (f : Nat → Except (List Char) T) (s0 : ConnState)
    (hinv : connInv s0) (c1 : Nat) (hc1 : (ensureConnected s0).cached = some c1) :
    (withServiceRetry T f s0).2.1.length ≤ 2 ∧
    (∀ v, f c1 = .ok v → withServiceRetry T f s0 = (ensureConnected s0, [c1], .ok v)) ∧
    (∀ e, f c1 = .error e → shouldReconnect e = false →
      withServiceRetry T f s0 = (ensureConnected s0, [c1], .error e)) ∧
    (∀ e, f c1 = .error e → shouldReconnect e = true →
      ∃ c2, c2 ≠ c1 ∧
        withServiceRetry T f s0 =
          ({ cached := some c2, nextConn := c2 + 1 }, [c1, c2], f c2)) := by
  have hlt : c1 < (ensureConnected s0).nextConn := by
    by_cases hs : s0.cached.isSome
    · have he : ensureConnected s0 = s0 := by simp [ensureConnected, hs]
      rw [he] at hc1 ⊢
      exact hinv c1 hc1
    · have he : ensureConnected s0 = ⟨some s0.nextConn, s0.nextConn + 1⟩ := by
        simp [ensureConnected, hs]
      rw [he] at hc1 ⊢
      simp only [ConnState.nextConn] at hc1 ⊢
      have : s0.nextConn = c1 := by
        simpa using congrArg (fun o => o.getD 0) hc1
      omega
  have hfresh : ensureConnected { ensureConnected s0 with cached := none } =
      ⟨some (ensureConnected s0).nextConn, (ensureConnected s0).nextConn + 1⟩ := by
    simp [ensureConnected]
  refine ⟨?_, ?_, ?_, ?_⟩
  · simp only [withServiceRetry, hc1]
    cases hf : f c1 with
    | ok v => simp
    | error e =>
      by_cases hr : shouldReconnect e
      · simp only [hr, if_true, hfresh]
        simp
      · simp [hr]
  · intro v hv
    simp only [withServiceRetry, hc1, hv]
  · intro e he hr
    simp only [withServiceRetry, hc1, he, hr, Bool.false_eq_true, if_false]
  · intro e he hr
    refine ⟨(ensureConnected s0).nextConn, by omega, ?_⟩
    simp only [withServiceRetry, hc1, he, hr, if_true, hfresh]

/-- Witness for C7: a transport-style first failure retries once on a
fresh connection. -/
theorem c7_retry_policy_witness :
    connInv ⟨none, 0⟩ ∧
    fW 0 = .error (cs "connection reset") ∧
    shouldReconnect (cs "connection reset") = true ∧
    ∃ c2, c2 ≠ 0 ∧
      withServiceRetry Nat fW ⟨none, 0⟩ =
        ({ cached := some c2, nextConn := c2 + 1 }, [0, c2], fW c2) :=
  by
  constructor
  · intro c hc
    exact absurd hc (by simp)
  refine ⟨rfl, by decide, ?_⟩
  exact (c7_retry_policy Nat fW ⟨none, 0⟩ (fun c hc => absurd hc (by simp)) 0 rfl).2.2.2
    (cs "connection reset") rfl (by decide)

/-- C1 counterexample: when args is already an object, resolve returns it
unchanged, so an empty object with a required field city comes back
without that key — the claim fails at this input. -/
theorem c1_counterexample :
    LlmParameterResolver.resolve [cs "city"] (Json.obj []) (some (Json.obj [])) none =
      some (Json.obj []) ∧
    Json.getKey (Json.obj []) (cs "city") = none :=
  ⟨rfl, rfl⟩

/-- C1 amended: when args is already an object it is returned unchanged
(required keys may be absent); when args is not an object and resolve
succeeds, and the normalized resolver value is an object, the returned
object has a key for every required field, and every required field that
was missing or null before the final fill-in carries JSON null. -/
theorem c1_amended_required_fields (required : List (List Char)) (input : Json)
    (audit : Option Json) :
    (input.isObj = true →
      ∀ fp, LlmParameterResolver.resolve required input fp audit = some input) ∧
    (input.isObj = false → ∀ v kvs,
      normalizeNullStrings (audit.getD v) = Json.obj kvs →
      ∃ okvs,
        LlmParameterResolver.resolve required input (some v) audit =
          some (Json.obj okvs) ∧
        ∀ f ∈ required,
          (lookupKV okvs f).isSome = true ∧
          ((lookupKV kvs f = none ∨ lookupKV kvs f = some Json.null) →
            lookupKV okvs f = some Json.null)) := by
  constructor
  · intro h fp
    exact resolve_obj_eq _ _ _ _ h
  · intro h v kvs hkvs
    rw [resolve_not_obj_eq _ _ _ _ h, mergeOriginal_not_obj _ _ h, hkvs]
    refine ⟨required.foldl ensureFieldStep kvs, rfl, ?_⟩
    intro f hf
    exact ⟨ensureFold_isSome _ _ _ hf, fun hm => ensureFold_null _ _ _ hf hm⟩

/-- Witness for C1 amended on the non-object path with one required
field. -/
theorem c1_amended_required_fields_witness :
    Json.isObj Json.null = false ∧
    ∃ okvs,
      LlmParameterResolver.resolve [cs "city"] Json.null (some (Json.obj [])) none =
        some (Json.obj okvs) ∧
      (lookupKV okvs (cs "city")).isSome = true := by
  have h := (c1_amended_required_fields [cs "city"] Json.null none).2 rfl (Json.obj []) [] rfl
  obtain ⟨okvs, h1, h2⟩ := h
  exact ⟨rfl, okvs, h1, (h2 (cs "city") (by simp)).1⟩

/-- C2 counterexample: with required field city missing but a session_id
key present, the client sends the stripped meta object, not no arguments
at all — the claim fails at this input. -/
theorem c2_counterexample :
    missingFields [cs "city"]
        (Json.obj [(cs "city", Json.null), (cs "session_id", Json.str (cs "s"))]) =
      [cs "city"] ∧
    callArguments [cs "city"]
        (Json.obj [(cs "city", Json.null), (cs "session_id", Json.str (cs "s"))]) =
      some (Json.obj [(cs "session_id", Json.str (cs "s"))]) :=
  ⟨rfl, rfl⟩

/-- C2 amended: a required field is missing exactly when it is absent,
null, empty or whitespace, the string null, or an empty array; when one
is missing, the client keeps only the session_id and double-underscore
meta keys, sending no arguments only when none survive; when none is
missing, object args pass through unchanged. -/
theorem c2_amended_call_arguments (required : List (List Char))
    (kvs : List (List Char × Json)) :
    (missingFields required (Json.obj kvs) = [] ↔
      ∀ f ∈ required, ∃ v, lookupKV kvs f = some v ∧ isMissingArgValue v = false) ∧
    (missingFields required (Json.obj kvs) ≠ [] →
      callArguments required (Json.obj kvs) =
        (if (kvs.filter (fun kv => isMetaKey kv.1)).isEmpty then none
         else some (Json.obj (kvs.filter (fun kv => isMetaKey kv.1))))) ∧
    (missingFields required (Json.obj kvs) = [] →
      callArguments required (Json.obj kvs) = some (Json.obj kvs)) := by
  refine ⟨?_, ?_, ?_⟩
  · simp only [missingFields, List.filter_eq_nil_iff]
    constructor
    · intro h f hf
      have h2 := h f hf
      cases hv : lookupKV kvs f with
      | none => rw [hv] at h2; simp at h2
      | some v =>
        rw [hv] at h2
        refine ⟨v, rfl, ?_⟩
        simpa using h2
    · intro h f hf
      obtain ⟨v, hv, hm⟩ := h f hf
      rw [hv]
      simp [hm]
  · intro h
    have hh : (missingFields required (Json.obj kvs)).isEmpty = false := by
      cases hx : (missingFields required (Json.obj kvs)).isEmpty
      · rfl
      · exact absurd (List.isEmpty_iff.mp hx) h
    simp [callArguments, hh]
  · intro h
    have hh : (missingFields required (Json.obj kvs)).isEmpty = true :=
      List.isEmpty_iff.mpr h
    simp [callArguments, hh, Json.isObj]

/-- Witness for C2 amended: a missing required field with no meta keys
leads to a call with no arguments. -/
theorem c2_amended_call_arguments_witness :
    missingFields [cs "city"] (Json.obj []) ≠ [] ∧
    callArguments [cs "city"] (Json.obj []) = none := by
  have hne : missingFields [cs "city"] (Json.obj []) ≠ [] := by decide
  have h := (c2_amended_call_arguments [cs "city"] []).2.1 hne
  exact ⟨hne, by simpa using h⟩

/-- C6 counterexample: object args are returned unchanged, so a string
null inside them survives resolve — the claim fails at this input. -/
theorem c6_counterexample :
    LlmParameterResolver.resolve [] (Json.obj [(cs "a", Json.str (cs "null"))]) none none =
      some (Json.obj [(cs "a", Json.str (cs "null"))]) ∧
    hasNullString (Json.obj [(cs "a", Json.str (cs "null"))]) = true :=
  ⟨rfl, rfl⟩

/-- C6 amended: on the non-object path, no string equal to null after
trimming and case folding survives anywhere in a successful resolve
result. -/
theorem c6_amended_no_null_strings (required : List (List Char)) (input : Json)
    (firstPass audit : Option Json) (out : Json)
    (hin : input.isObj = false)
    (hres : LlmParameterResolver.resolve required input firstPass audit = some out) :
    hasNullString out = false := by
  cases firstPass with
  | none =>
    rw [resolve_not_obj_none _ _ _ hin] at hres
    cases hres
  | some v =>
    rw [resolve_not_obj_eq _ _ _ _ hin, mergeOriginal_not_obj _ _ hin] at hres
    injection hres with hres
    rw [← hres]
    exact ensureRequired_no_null _ _ (normalize_no_null _)

/-- Witness for C6 amended: a lone string null resolves to JSON null. -/
theorem c6_amended_no_null_strings_witness :
    Json.isObj Json.null = false ∧
    LlmParameterResolver.resolve [] Json.null (some (Json.str (cs "null"))) none =
      some Json.null ∧
    hasNullString Json.null = false :=
  ⟨rfl, rfl,
   c6_amended_no_null_strings [] Json.null (some (Json.str (cs "null"))) none Json.null
     rfl rfl⟩

/-- C5: when the text extracted from the awaited input event matches the
cancel-phrase list, the elicitation handler, in this order, marks the
event id consumed, publishes the tool_cancel OutputEvent on the output
bus, sends the cancelled notification for the recorded call request id
when one is recorded, and returns an elicitation result of action Cancel
with no content. -/
theorem c5_cancel_round_effects (parse : List Char → Option Json)
    (llm : Option (List Char)) (sh : SharedCtx) (sid : List Char) (ev : InputEv)
    (h : isCancelText (extractElicitInput ev.payload) = true) :
    createElicitationAnswerPhase parse llm sh sid ev =
      ([McpEffect.markConsumed ev.id, McpEffect.emitBus (toolCancelOutput sid)] ++
        (match sh.currentCallToolRequestId with
         | some rid => [McpEffect.notifyCancelled rid (cs "user cancelled")]
         | none => []),
       Except.ok { action := .cancel, content := none }) := by
  simp [createElicitationAnswerPhase, h]

/-- Witness for C5 on a concrete cancel answer with a recorded request
id. -/
theorem c5_cancel_round_effects_witness :
    isCancelText (extractElicitInput (Json.obj [(cs "content", Json.str (cs "cancel"))])) =
      true ∧
    createElicitationAnswerPhase (fun _ => none) none shW (cs "s")
        ⟨2, cs "t", some (cs "s"), Json.obj [(cs "content", Json.str (cs "cancel"))]⟩ =
      ([McpEffect.markConsumed 2, McpEffect.emitBus (toolCancelOutput (cs "s")),
        McpEffect.notifyCancelled 3 (cs "user cancelled")],
       Except.ok { action := .cancel, content := none }) := by
  have hc : isCancelText
      (extractElicitInput (Json.obj [(cs "content", Json.str (cs "cancel"))])) = true := by
    decide
  refine ⟨hc, ?_⟩
  exact c5_cancel_round_effects (fun _ => none) none shW (cs "s")
    ⟨2, cs "t", some (cs "s"), Json.obj [(cs "content", Json.str (cs "cancel"))]⟩ hc

/-- C3: the elicitation handler stashes the prompt and schema and emits
the elicitation OutputEvent on the output bus before awaiting the input
bus, but it leaves the elicitation-active set unchanged — the code never
calls set_elicitation_active, so the flag claimed to be set to true stays
false; the session actor does drop any event whose session currently has
the flag set, performing no perception, intent, planning or execution. -/
theorem c3_elicitation_active_never_set (sh : SharedCtx) (active : Finset (List Char))
    (sid message : List Char) (schema : Json) :
    createElicitationAwaitPhase sh active sid message schema =
      ({ sh with lastElicitationMessage := some message,
                 lastElicitationSchema := some schema },
       active,
       [.emitBus (elicitPromptOutput sid message schema), .awaitInputBus]) ∧
    (∀ (env : SessionEnv) (g : GlobalState) (st : SessionState) (ev : InputEv),
      isElicitationActive g.active (ev.sessionId.getD ev.source) = true →
      handleInput env g st ev =
        ({ g with consumed := g.consumed.erase ev.id }, st, [])) := by
  constructor
  · rfl
  · intro env g st ev h
    by_cases hc : ev.id ∈ g.consumed <;>
      simp [handleInput, checkAndRemoveConsumedEvent, hc, h]

/-- Witness for C3 at a concrete session with the flag set by hand. -/
theorem c3_elicitation_active_never_set_witness :
    isElicitationActive ({cs "s"} : Finset (List Char)) (cs "s") = true ∧
    handleInput envW ⟨∅, {cs "s"}⟩ ⟨none⟩ ⟨4, cs "s", none, Json.null⟩ =
      (⟨(∅ : Finset Nat).erase 4, ({cs "s"} : Finset (List Char))⟩,
       (⟨none⟩ : SessionState), []) := by
  have h1 : isElicitationActive ({cs "s"} : Finset (List Char)) (cs "s") = true := by
    decide
  exact ⟨h1,
    (c3_elicitation_active_never_set shW ∅ [] [] Json.null).2 envW ⟨∅, {cs "s"}⟩ ⟨none⟩
      ⟨4, cs "s", none, Json.null⟩ h1⟩

theorem execGo_noPlanning (env : SessionEnv) (steps : List StepSpec) :
    ∀ (rest : List StepSpec) (i : Nat) (ctx : Context) (src : List Char)
      (e : SessEffect), e ∈ (execGo env steps rest i ctx src).2 →
      noPlanningEffect e = true := by
  intro rest
  induction rest with
  | nil =>
    intro i ctx src e he
    simp [execGo] at he
  | cons spec rest ih =>
    intro i ctx src e he
    simp only [execGo] at he
    split at he
    · simp only [List.mem_cons] at he
      rcases he with rfl | rfl | he
      · rfl
      · rfl
      · exact ih _ _ _ _ he
    · split at he
      · simp only [List.mem_cons, List.not_mem_nil, or_false] at he
        rcases he with rfl | rfl
        · rfl
        · rfl
      · split at he
        · rcases List.mem_cons.mp he with rfl | he
          · rfl
          · split at he
            · simp only [List.append_eq, List.cons_append, List.nil_append, List.mem_cons,
                List.not_mem_nil, or_false] at he
              rcases he with rfl | rfl
              · rfl
              · rfl
            · simp only [List.append_eq, List.nil_append, List.mem_singleton] at he
              subst he
              rfl
        · rcases List.mem_cons.mp he with rfl | he
          · rfl
          · split at he
            · simp only [List.append_eq, List.mem_singleton] at he
              subst he
              rfl
            · simp at he
        · rcases List.mem_cons.mp he with rfl | he
          · rfl
          · split at he
            · simp only [List.append_eq, List.cons_append, List.nil_append,
                List.mem_cons] at he
              rcases he with rfl | he
              · rfl
              · exact ih _ _ _ _ he
            · simp only [List.append_eq, List.nil_append] at he
              exact ih _ _ _ _ he

/-- C8: a foreground step returning WaitUser makes the actor dispatch the
step output, then emit the prompt, store (the full step list, the current
index, the mutated context) as the pending execution — of which the
Option-typed field holds at most one per session — and run no further
step; and on the next event that is neither consumed nor
elicitation-blocked, the actor takes the pending execution, overwrites the
context input text with the new event's text, and resumes from the stored
index with no perception, intent or planning effects. -/
theorem c8_suspension_and_resume :
    (∀ (env : SessionEnv) (steps rest : List StepSpec) (i : Nat) (ctx : Context)
       (evSource : List Char) (spec : StepSpec) (prompt : List Char) (ctx2 : Context)
       (out : Option OutputEv),
      isBackgroundSpec spec = false →
      env.run i spec { ctx with memory := setCurrentStepIndex ctx.memory i } =
        .ok (ctx2, .WaitUser prompt, out) →
      execGo env steps (spec :: rest) i ctx evSource =
        (some (steps, i, ctx2),
         (SessEffect.runStep i ::
           (match out with
            | some o => [SessEffect.dispatchOutput (fixOutput o evSource env.sessionId)]
            | none => [])) ++
           [SessEffect.dispatchOutput
             (waitUserPromptOutput evSource env.sessionId env.persona prompt)])) ∧
    (∀ (env : SessionEnv) (g : GlobalState) (st : SessionState) (ev : InputEv)
       (steps : List StepSpec) (idx : Nat) (ctx : Context),
      st.pending = some (steps, idx, ctx) →
      ev.id ∉ g.consumed →
      isElicitationActive g.active (ev.sessionId.getD ev.source) = false →
      (handleInput env g st ev =
        ({ g with consumed := g.consumed.erase ev.id },
         ⟨(executeWorkflow env steps idx
             { ctx with inputText := extractText ev.payload } ev.source).1⟩,
         (executeWorkflow env steps idx
             { ctx with inputText := extractText ev.payload } ev.source).2)) ∧
      (∀ e ∈ (executeWorkflow env steps idx
                { ctx with inputText := extractText ev.payload } ev.source).2,
        noPlanningEffect e = true)) := by
  constructor
  · intro env steps rest i ctx evSource spec prompt ctx2 out hbg hrun
    cases spec with
    | memory => simp [execGo, hrun]
    | profile => simp [execGo, hrun]
    | relationship => simp [execGo, hrun]
    | tool n a bg deps =>
      simp only [isBackgroundSpec] at hbg
      subst hbg
      simp [execGo, hrun]
  · intro env g st ev steps idx ctx hp hcons hact
    constructor
    · simp [handleInput, checkAndRemoveConsumedEvent, hcons, hact, hp, executeWorkflow]
    · intro e he
      exact execGo_noPlanning env steps _ _ _ _ e (by simpa [executeWorkflow] using he)

/-- Witness for C8: a one-step plan suspends on WaitUser, and a pending
execution is resumed with the new input text. -/
theorem c8_suspension_and_resume_witness :
    isBackgroundSpec StepSpec.memory = false ∧
    execGo envW8 [StepSpec.memory] [StepSpec.memory] 0 ctxW8 (cs "t") =
      (some ([StepSpec.memory], 0, ctxW8),
       [SessEffect.runStep 0,
        SessEffect.dispatchOutput
          (waitUserPromptOutput (cs "t") envW8.sessionId envW8.persona (cs "confirm?"))]) ∧
    handleInput envW8 ⟨∅, ∅⟩ ⟨some ([StepSpec.memory], 0, ctxW8)⟩
        ⟨5, cs "t", none, Json.obj [(cs "line", Json.str (cs "yes"))]⟩ =
      (⟨(∅ : Finset Nat).erase 5, (∅ : Finset (List Char))⟩,
       ⟨(executeWorkflow envW8 [StepSpec.memory] 0
           { ctxW8 with
               inputText := extractText (Json.obj [(cs "line", Json.str (cs "yes"))]) }
           (cs "t")).1⟩,
       (executeWorkflow envW8 [StepSpec.memory] 0
           { ctxW8 with
               inputText := extractText (Json.obj [(cs "line", Json.str (cs "yes"))]) }
           (cs "t")).2) := by
  refine ⟨rfl, ?_, ?_⟩
  · exact (c8_suspension_and_resume).1 envW8 [StepSpec.memory] [] 0 ctxW8 (cs "t")
      StepSpec.memory (cs "confirm?") ctxW8 none rfl rfl
  · exact ((c8_suspension_and_resume).2 envW8 ⟨∅, ∅⟩ ⟨some ([StepSpec.memory], 0, ctxW8)⟩
      ⟨5, cs "t", none, Json.obj [(cs "line", Json.str (cs "yes"))]⟩ [StepSpec.memory] 0 ctxW8
      rfl (by decide) (by decide)).1
